import Mathlib

/-!
Shallow embedding of the generational connection pool from
`src/netstack/src/connection.rs`, together with theorems checking the
specification's claims about it.

Conventions of the embedding:
* `Vec<Connection>` and `VecDeque<usize>` become Lean `List`s; `pop_front`
  takes the head, `push_back` appends at the tail.
* Rust indexing `v[i]`, which panics out of bounds, is modelled with `[i]?`;
  an operation that can panic returns `Option`, where `none` is the panic
  (including the explicit `panic!` in `ConnectionDataList::set`).
* `Result<(), ()>` becomes `Except Unit`, carrying the updated state in the
  `ok` branch since Rust mutates in place.
-/

namespace Netstack

/-- `Connection`: an (id, generation) handle pair. -/
structure Connection where
  id : Nat
  generation : Nat
deriving DecidableEq, Repr

/-- `ConnectionList`: the slot pool. `connections` is the slot table,
`empty` the FIFO free queue (front = head of the list). -/
structure ConnectionList where
  connections : List Connection
  empty : List Nat
deriving DecidableEq, Repr

namespace ConnectionList

/-- `ConnectionList::new(size)`: slots `(i, 0)` for `i in 0..size`, and the
free queue `[0, ..., size-1]`. -/
def new (size : Nat) : ConnectionList :=
  ⟨(List.range size).map (fun i => ⟨i, 0⟩), List.range size⟩

/-- `ConnectionList::is_alive`: `none` models the out-of-bounds panic of
`self.connections[id]`; otherwise false on generation mismatch, else the
parity test `connection.generation % 2 == 1`. -/
def is_alive (s : ConnectionList) (c : Connection) : Option Bool :=
  match s.connections[c.id]? with
  | none => none
  | some slot =>
    if slot.generation ≠ c.generation then some false
    else some (c.generation % 2 = 1)

/-- `ConnectionList::create_connection`: pop the front of the free queue
(`none` from `pop_front` means pool exhaustion, modelled as the inner
`none`); the outer `none` models the `self.connections[id]` panic. -/
def create_connection (s : ConnectionList) :
    Option (Option Connection × ConnectionList) :=
  match s.empty with
  | [] => some (none, s)
  | id :: rest =>
    match s.connections[id]? with
    | none => none
    | some old =>
      let new_connection : Connection := ⟨id, old.generation + 1⟩
      some (some new_connection,
            ⟨s.connections.set id new_connection, rest⟩)

/-- `ConnectionList::delete_connection`: outer `none` models the indexing
panic; `Except.error ()` is the stale-handle rejection; on success the
slot's generation is bumped and the id is pushed to the back of the free
queue. -/
def delete_connection (s : ConnectionList) (c : Connection) :
    Option (Except Unit ConnectionList) :=
  match s.connections[c.id]? with
  | none => none
  | some old =>
    if c.generation ≠ old.generation then some (Except.error ())
    else some (Except.ok
      ⟨s.connections.set c.id ⟨c.id, old.generation + 1⟩,
       s.empty ++ [c.id]⟩)

/-- Generation stored for slot `i` (0 when out of bounds; every use keeps
`i` within the table, whose length never changes). -/
def genAt (s : ConnectionList) (i : Nat) : Nat :=
  match s.connections[i]? with
  | none => 0
  | some slot => slot.generation

end ConnectionList

/-- `ConnectionDataList<T>`: parallel payload and generation-stamp tables. -/
structure ConnectionDataList (T : Type) where
  items : List (Option T)
  generations : List Nat
deriving DecidableEq, Repr

namespace ConnectionDataList

/-- `ConnectionDataList::new(size)`: all payloads absent, all stamps 0. -/
def new (T : Type) (size : Nat) : ConnectionDataList T :=
  ⟨List.replicate size none, List.replicate size 0⟩

/-- `ConnectionDataList::get`: outer `none` models the indexing panics;
`some none` is a stale/absent read, `some (some v)` a hit. -/
def get {T : Type} (d : ConnectionDataList T) (c : Connection) :
    Option (Option T) :=
  match d.generations[c.id]? with
  | none => none
  | some g =>
    if c.generation ≠ g then some none
    else
      match d.items[c.id]? with
      | none => none
      | some it => some it

/-- `ConnectionDataList::get_mut`: identical observable behaviour to `get`
(the Rust difference is only mutability of the returned reference). -/
def get_mut {T : Type} (d : ConnectionDataList T) (c : Connection) :
    Option (Option T) :=
  match d.generations[c.id]? with
  | none => none
  | some g =>
    if c.generation ≠ g then some none
    else
      match d.items[c.id]? with
      | none => none
      | some it => some it

/-- `ConnectionDataList::set`: `none` models both the indexing panic and
the explicit `panic!("connection no longer alive")` taken when
`connection.generation < self.generations[id]`; otherwise the stamp is
updated to the handle's generation and the payload overwritten. -/
def set {T : Type} (d : ConnectionDataList T) (c : Connection) (item : T) :
    Option (ConnectionDataList T) :=
  match d.generations[c.id]? with
  | none => none
  | some g =>
    if c.generation < g then none
    else some ⟨d.items.set c.id (some item),
               d.generations.set c.id c.generation⟩

/-- `ConnectionDataList::remove`: outer `none` models the indexing panics;
on generation mismatch reports absence without side effect; on match it
`take`s the payload (returns it and clears the cell). -/
def remove {T : Type} (d : ConnectionDataList T) (c : Connection) :
    Option (Option T × ConnectionDataList T) :=
  match d.generations[c.id]? with
  | none => none
  | some g =>
    if c.generation ≠ g then some (none, d)
    else
      match d.items[c.id]? with
      | none => none
      | some it => some (it, ⟨d.items.set c.id none, d.generations⟩)

/-- Generation stamp stored for slot `i` (0 when out of bounds; every use
keeps `i` within the table). -/
def stampAt {T : Type} (d : ConnectionDataList T) (i : Nat) : Nat :=
  match d.generations[i]? with
  | none => 0
  | some g => g

end ConnectionDataList

/-- Repeated `create_connection` calls, demanding that each one returns a
handle; `none` if any call reports exhaustion (or panics). -/
def creates (s : ConnectionList) : Nat → Option ConnectionList
  | 0 => some s
  | n + 1 =>
    match s.create_connection with
    | some (some _, s₂) => creates s₂ n
    | _ => none

/-- The intermediate state of a fresh pool of capacity `N` after its first
`k` successful `create_connection` calls. -/
def midState (N k : Nat) : ConnectionList :=
  ⟨(List.range N).map (fun i => if i < k then ⟨i, 1⟩ else ⟨i, 0⟩),
   List.range' k (N - k)⟩

/-- A pool state paired with the list of handles the pool has issued so
far (most recent first). Only these handles can be passed back in by a
caller, since `Connection::new` is `pub(crate)`. -/
abbrev Pool := ConnectionList × List Connection

/-- Labels identifying which API call a transition performs and its
outcome. -/
inductive Lab where
  | createOk (c : Connection)
  | createFail
  | deleteOk (c : Connection)
  | deleteErr (c : Connection)
deriving DecidableEq

/-- One non-panicking API call on the pool. Deletion is restricted to
handles the pool itself issued, matching the crate-private constructor. -/
inductive Step : Lab → Pool → Pool → Prop where
  | createOk {s s' : ConnectionList} {c : Connection} {hs : List Connection} :
      s.create_connection = some (some c, s') →
      Step (Lab.createOk c) (s, hs) (s', c :: hs)
  | createFail {s s' : ConnectionList} {hs : List Connection} :
      s.create_connection = some (none, s') →
      Step Lab.createFail (s, hs) (s', hs)
  | deleteOk {s s' : ConnectionList} {c : Connection} {hs : List Connection} :
      c ∈ hs → s.delete_connection c = some (Except.ok s') →
      Step (Lab.deleteOk c) (s, hs) (s', hs)
  | deleteErr {s : ConnectionList} {c : Connection} {hs : List Connection} :
      c ∈ hs → s.delete_connection c = some (Except.error ()) →
      Step (Lab.deleteErr c) (s, hs) (s, hs)

/-- A finite sequence of API calls. -/
inductive Steps : List Lab → Pool → Pool → Prop where
  | nil {p : Pool} : Steps [] p p
  | cons {l : Lab} {ls : List Lab} {p q r : Pool} :
      Step l p q → Steps ls q r → Steps (l :: ls) p r

/-- States reachable from `ConnectionList::new N` through the public API. -/
def Reached (N : Nat) (p : Pool) : Prop :=
  ∃ ls, Steps ls (ConnectionList.new N, []) p

/-- The pool's representation invariant, maintained by every API call. -/
structure Inv (N : Nat) (p : Pool) : Prop where
  len : p.1.connections.length = N
  slot_id : ∀ i, i < N → p.1.connections[i]? = some ⟨i, p.1.genAt i⟩
  mem_empty : ∀ i, i ∈ p.1.empty ↔ (i < N ∧ p.1.genAt i % 2 = 0)
  nodup : p.1.empty.Nodup
  handles : ∀ c ∈ p.2,
    c.id < N ∧ c.generation % 2 = 1 ∧ c.generation ≤ p.1.genAt c.id

namespace ConnectionList

theorem connections_new_getElem (N i : Nat) (h : i < N) :
    (new N).connections[i]? = some ⟨i, 0⟩ := by
  simp [new, List.getElem?_map, List.getElem?_range h]

theorem genAt_new (N i : Nat) : (new N).genAt i = 0 := by
  unfold genAt
  rcases Nat.lt_or_ge i N with h | h
  · rw [connections_new_getElem N i h]
  · have hnone : (new N).connections[i]? = none := by
      apply List.getElem?_eq_none
      simp [new]
      omega
    rw [hnone]

theorem genAt_eq_of_getElem {s : ConnectionList} {i : Nat} {slot : Connection}
    (h : s.connections[i]? = some slot) : s.genAt i = slot.generation := by
  unfold genAt
  rw [h]

theorem genAt_mk_set_self (cs : List Connection) (q : List Nat) (i : Nat)
    (v : Connection) (h : i < cs.length) :
    ConnectionList.genAt ⟨cs.set i v, q⟩ i = v.generation := by
  unfold genAt
  simp [List.getElem?_set, h]

theorem genAt_mk_set_ne (cs : List Connection) (q q₂ : List Nat) {i j : Nat}
    (v : Connection) (h : i ≠ j) :
    ConnectionList.genAt ⟨cs.set i v, q⟩ j = ConnectionList.genAt ⟨cs, q₂⟩ j := by
  unfold genAt
  rw [List.getElem?_set_ne h]

theorem create_connection_ok {s s₂ : ConnectionList} {c : Connection}
    (h : s.create_connection = some (some c, s₂)) :
    ∃ rest old, s.empty = c.id :: rest ∧ s.connections[c.id]? = some old ∧
      c = ⟨c.id, old.generation + 1⟩ ∧
      s₂ = ⟨s.connections.set c.id c, rest⟩ := by
  unfold create_connection at h
  split at h
  · simp at h
  · rename_i j rest hq
    split at h
    · simp at h
    · rename_i old hg
      simp only [Option.some.injEq, Prod.mk.injEq] at h
      obtain ⟨hc, hs⟩ := h
      have hcid : c.id = j := by
        rw [← hc]
      subst hcid
      refine ⟨rest, old, hq, hg, hc.symm, ?_⟩
      rw [← hc]
      exact hs.symm

theorem create_connection_fail {s s₂ : ConnectionList}
    (h : s.create_connection = some (none, s₂)) :
    s₂ = s ∧ s.empty = [] := by
  unfold create_connection at h
  split at h
  · rename_i hq
    simp only [Option.some.injEq, Prod.mk.injEq] at h
    exact ⟨h.2.symm, hq⟩
  · rename_i j rest hq
    split at h
    · simp at h
    · simp at h

theorem delete_connection_ok {s s₂ : ConnectionList} {c : Connection}
    (h : s.delete_connection c = some (Except.ok s₂)) :
    ∃ old, s.connections[c.id]? = some old ∧ c.generation = old.generation ∧
      s₂ = ⟨s.connections.set c.id ⟨c.id, old.generation + 1⟩,
            s.empty ++ [c.id]⟩ := by
  unfold delete_connection at h
  split at h
  · simp at h
  · rename_i old hg
    split at h
    · simp at h
    · rename_i hgen
      simp only [Option.some.injEq, Except.ok.injEq] at h
      exact ⟨old, hg, by simpa using hgen, h.symm⟩

theorem delete_connection_err {s : ConnectionList} {c : Connection}
    (h : s.delete_connection c = some (Except.error ())) :
    ∃ old, s.connections[c.id]? = some old ∧ c.generation ≠ old.generation := by
  unfold delete_connection at h
  split at h
  · simp at h
  · rename_i old hg
    split at h
    · rename_i hgen
      exact ⟨old, hg, by simpa using hgen⟩
    · simp at h

theorem delete_connection_eq_ok {s : ConnectionList} {c : Connection}
    {old : Connection} (hg : s.connections[c.id]? = some old)
    (hgen : c.generation = old.generation) :
    s.delete_connection c = some (Except.ok
      ⟨s.connections.set c.id ⟨c.id, old.generation + 1⟩,
       s.empty ++ [c.id]⟩) := by
  unfold delete_connection
  rw [hg]
  simp [hgen]

theorem delete_connection_eq_err {s : ConnectionList} {c : Connection}
    {old : Connection} (hg : s.connections[c.id]? = some old)
    (hgen : c.generation ≠ old.generation) :
    s.delete_connection c = some (Except.error ()) := by
  unfold delete_connection
  rw [hg]
  simp [hgen]

theorem is_alive_spec {s : ConnectionList} {c : Connection}
    (h : c.id < s.connections.length) :
    s.is_alive c =
      some (decide (s.genAt c.id = c.generation ∧ c.generation % 2 = 1)) := by
  have hsome : s.connections[c.id]? = some (s.connections[c.id]) :=
    List.getElem?_eq_getElem h
  have hgen : s.genAt c.id = (s.connections[c.id]).generation :=
    genAt_eq_of_getElem hsome
  unfold is_alive
  rw [hsome, hgen]
  by_cases hg : (s.connections[c.id]).generation = c.generation
  · simp [hg]
  · simp [hg]

end ConnectionList

section InvariantProofs

open ConnectionList

theorem genAt_set_self' {s : ConnectionList} {q : List Nat} {i : Nat}
    (v : Connection) (h : i < s.connections.length) :
    ConnectionList.genAt ⟨s.connections.set i v, q⟩ i = v.generation :=
  genAt_mk_set_self _ _ _ _ h

theorem genAt_set_ne' {s : ConnectionList} {q : List Nat} {i j : Nat}
    (v : Connection) (h : i ≠ j) :
    ConnectionList.genAt ⟨s.connections.set i v, q⟩ j = s.genAt j :=
  genAt_mk_set_ne _ _ s.empty v h

theorem inv_new (N : Nat) : Inv N (ConnectionList.new N, []) := by
  constructor
  · simp [ConnectionList.new]
  · intro i h
    rw [connections_new_getElem N i h, genAt_new]
  · intro i
    rw [genAt_new]
    simp [ConnectionList.new, List.mem_range]
  · simp only [ConnectionList.new]
    exact List.nodup_range N
  · intro c hc
    simp at hc

theorem inv_step {l : Lab} {p q : Pool} {N : Nat}
    (hstep : Step l p q) (hinv : Inv N p) : Inv N q := by
  cases hstep with
  | createOk h =>
    rename_i s s₂ c hs
    obtain ⟨rest, old, hq, hg, hc, hs₂⟩ := create_connection_ok h
    subst hs₂
    have hidlt : c.id < s.connections.length := (List.getElem?_eq_some.mp hg).1
    have hmem : c.id ∈ s.empty := by
      rw [hq]
      exact List.mem_cons_self _ _
    obtain ⟨hidN, heven⟩ := (hinv.mem_empty c.id).mp hmem
    have hslot := hinv.slot_id c.id hidN
    have holdgen : old.generation = s.genAt c.id := by
      rw [hg] at hslot
      cases hslot
      rfl
    have hcgen : c.generation = s.genAt c.id + 1 := by
      rw [hc]
      simp [holdgen]
    have hnodup : (c.id :: rest).Nodup := hq ▸ hinv.nodup
    constructor
    · rw [List.length_set]
      exact hinv.len
    · intro i hi
      by_cases hic : i = c.id
      · subst hic
        rw [List.getElem?_set_eq_of_lt _ hidlt, genAt_set_self' c hidlt]
      · rw [List.getElem?_set_ne (fun hcontra => hic hcontra.symm),
            genAt_set_ne' c (fun hcontra => hic hcontra.symm)]
        exact hinv.slot_id i hi
    · intro i
      by_cases hic : i = c.id
      · subst hic
        have hnot : c.id ∉ rest := (List.nodup_cons.mp hnodup).1
        have heven' : s.genAt c.id % 2 = 0 := heven
        have hodd : ConnectionList.genAt ⟨s.connections.set c.id c, rest⟩ c.id % 2 = 1 := by
          rw [genAt_set_self' c hidlt, hcgen]
          omega
        constructor
        · intro hfalse
          exact absurd hfalse hnot
        · intro ⟨_, hzero⟩
          have hzero' : ConnectionList.genAt ⟨s.connections.set c.id c, rest⟩ c.id % 2 = 0 :=
            hzero
          omega
      · have hrw : ConnectionList.genAt ⟨s.connections.set c.id c, rest⟩ i = s.genAt i :=
          genAt_set_ne' c (fun hcontra => hic hcontra.symm)
        rw [hrw]
        have hiff : i ∈ rest ↔ i ∈ s.empty := by
          rw [hq, List.mem_cons]
          constructor
          · exact Or.inr
          · rintro (hl | hr)
            · exact absurd hl hic
            · exact hr
        rw [hiff]
        exact hinv.mem_empty i
    · exact (List.nodup_cons.mp hnodup).2
    · intro c' hc'
      have heven' : s.genAt c.id % 2 = 0 := heven
      rcases List.mem_cons.mp hc' with hceq | hmem'
      · subst hceq
        refine ⟨hidN, ?_, ?_⟩
        · rw [hcgen]
          omega
        · rw [genAt_set_self' c' hidlt]
      · obtain ⟨h1, h2, h3⟩ := hinv.handles c' hmem'
        have h3' : c'.generation ≤ s.genAt c'.id := h3
        refine ⟨h1, h2, ?_⟩
        by_cases hic : c'.id = c.id
        · rw [hic, genAt_set_self' c hidlt, hcgen]
          rw [hic] at h3'
          omega
        · rw [genAt_set_ne' c (fun hcontra => hic hcontra.symm)]
          exact h3'
  | createFail h =>
    obtain ⟨hs₂, _⟩ := create_connection_fail h
    subst hs₂
    exact hinv
  | deleteOk hmem h =>
    rename_i s s₂ c hs
    obtain ⟨old, hg, hgen, hs₂⟩ := delete_connection_ok h
    subst hs₂
    have hidlt : c.id < s.connections.length := (List.getElem?_eq_some.mp hg).1
    obtain ⟨hidN, hodd, hle⟩ := hinv.handles c hmem
    have holdgen : old.generation = s.genAt c.id := by
      have hslot := hinv.slot_id c.id hidN
      rw [hg] at hslot
      cases hslot
      rfl
    have hstored : s.genAt c.id = c.generation := by
      rw [← holdgen, ← hgen]
    have hnotfree : c.id ∉ s.empty := by
      intro hin
      obtain ⟨_, heven⟩ := (hinv.mem_empty c.id).mp hin
      have heven' : s.genAt c.id % 2 = 0 := heven
      rw [hstored] at heven'
      omega
    constructor
    · rw [List.length_set]
      exact hinv.len
    · intro i hi
      by_cases hic : i = c.id
      · subst hic
        rw [List.getElem?_set_eq_of_lt _ hidlt,
            genAt_set_self' ⟨c.id, old.generation + 1⟩ hidlt]
      · rw [List.getElem?_set_ne (fun hcontra => hic hcontra.symm),
            genAt_set_ne' ⟨c.id, old.generation + 1⟩ (fun hcontra => hic hcontra.symm)]
        exact hinv.slot_id i hi
    · intro i
      rw [List.mem_append]
      by_cases hic : i = c.id
      · subst hic
        have hgval : ConnectionList.genAt
            ⟨s.connections.set c.id ⟨c.id, old.generation + 1⟩, s.empty ++ [c.id]⟩ c.id
              = old.generation + 1 :=
          genAt_set_self' ⟨c.id, old.generation + 1⟩ hidlt
        rw [hgval]
        simp only [List.mem_singleton]
        constructor
        · intro _
          refine ⟨hidN, ?_⟩
          omega
        · intro _
          right
          simp
      · have hrw : ConnectionList.genAt
            ⟨s.connections.set c.id ⟨c.id, old.generation + 1⟩, s.empty ++ [c.id]⟩ i
              = s.genAt i :=
          genAt_set_ne' ⟨c.id, old.generation + 1⟩ (fun hcontra => hic hcontra.symm)
        rw [hrw]
        simp only [List.mem_singleton]
        constructor
        · rintro (hin | hieq)
          · exact (hinv.mem_empty i).mp hin
          · exact absurd hieq hic
        · intro hrhs
          exact Or.inl ((hinv.mem_empty i).mpr hrhs)
    · rw [List.nodup_append]
      refine ⟨hinv.nodup, List.nodup_singleton _, ?_⟩
      intro a ha hb
      rw [List.mem_singleton] at hb
      subst hb
      exact hnotfree ha
    · intro c' hc'
      obtain ⟨h1, h2, h3⟩ := hinv.handles c' hc'
      have h3' : c'.generation ≤ s.genAt c'.id := h3
      refine ⟨h1, h2, ?_⟩
      by_cases hic : c'.id = c.id
      · rw [hic, genAt_set_self' ⟨c.id, old.generation + 1⟩ hidlt]
        rw [hic] at h3'
        show c'.generation ≤ old.generation + 1
        omega
      · rw [genAt_set_ne' ⟨c.id, old.generation + 1⟩ (fun hcontra => hic hcontra.symm)]
        exact h3'
  | deleteErr hmem h =>
    exact hinv

theorem inv_steps {ls : List Lab} {p q : Pool} {N : Nat}
    (hsteps : Steps ls p q) (hinv : Inv N p) : Inv N q := by
  induction hsteps with
  | nil => exact hinv
  | cons hstep _ ih => exact ih (inv_step hstep hinv)

theorem inv_reached {N : Nat} {p : Pool} (h : Reached N p) : Inv N p := by
  obtain ⟨ls, hsteps⟩ := h
  exact inv_steps hsteps (inv_new N)

end InvariantProofs

section Monotonicity

open ConnectionList

theorem step_connections_length {l : Lab} {p q : Pool} (h : Step l p q) :
    q.1.connections.length = p.1.connections.length := by
  cases h with
  | createOk h =>
    obtain ⟨rest, old, hq, hg, hc, hs₂⟩ := create_connection_ok h
    subst hs₂
    simp [List.length_set]
  | createFail h =>
    obtain ⟨hs₂, _⟩ := create_connection_fail h
    subst hs₂
    rfl
  | deleteOk hmem h =>
    obtain ⟨old, hg, hgen, hs₂⟩ := delete_connection_ok h
    subst hs₂
    simp [List.length_set]
  | deleteErr hmem h => rfl

theorem step_genAt_le {l : Lab} {p q : Pool} (h : Step l p q) (i : Nat) :
    p.1.genAt i ≤ q.1.genAt i := by
  cases h with
  | createOk h =>
    rename_i s s₂ c hs
    obtain ⟨rest, old, hq, hg, hc, hs₂⟩ := create_connection_ok h
    subst hs₂
    have hidlt : c.id < s.connections.length := (List.getElem?_eq_some.mp hg).1
    by_cases hic : i = c.id
    · subst hic
      have h1 : s.genAt c.id = old.generation := genAt_eq_of_getElem hg
      have h2 : ConnectionList.genAt ⟨s.connections.set c.id c, rest⟩ c.id = c.generation :=
        genAt_set_self' c hidlt
      have h3 : c.generation = old.generation + 1 := by rw [hc]
      show s.genAt c.id ≤ ConnectionList.genAt ⟨s.connections.set c.id c, rest⟩ c.id
      omega
    · show s.genAt i ≤ ConnectionList.genAt ⟨s.connections.set c.id c, rest⟩ i
      rw [genAt_set_ne' c (fun hcontra => hic hcontra.symm)]
  | createFail h =>
    obtain ⟨hs₂, _⟩ := create_connection_fail h
    subst hs₂
    exact Nat.le_refl _
  | deleteOk hmem h =>
    rename_i s s₂ c hs
    obtain ⟨old, hg, hgen, hs₂⟩ := delete_connection_ok h
    subst hs₂
    have hidlt : c.id < s.connections.length := (List.getElem?_eq_some.mp hg).1
    by_cases hic : i = c.id
    · subst hic
      have h1 : s.genAt c.id = old.generation := genAt_eq_of_getElem hg
      have h2 : ConnectionList.genAt
          ⟨s.connections.set c.id ⟨c.id, old.generation + 1⟩, s.empty ++ [c.id]⟩ c.id
            = old.generation + 1 :=
        genAt_set_self' ⟨c.id, old.generation + 1⟩ hidlt
      show s.genAt c.id ≤ ConnectionList.genAt
        ⟨s.connections.set c.id ⟨c.id, old.generation + 1⟩, s.empty ++ [c.id]⟩ c.id
      omega
    · show s.genAt i ≤ ConnectionList.genAt
        ⟨s.connections.set c.id ⟨c.id, old.generation + 1⟩, s.empty ++ [c.id]⟩ i
      rw [genAt_set_ne' ⟨c.id, old.generation + 1⟩ (fun hcontra => hic hcontra.symm)]
  | deleteErr hmem h =>
    exact Nat.le_refl _

theorem steps_connections_length {ls : List Lab} {p q : Pool}
    (h : Steps ls p q) :
    q.1.connections.length = p.1.connections.length := by
  induction h with
  | nil => rfl
  | cons hstep _ ih => rw [ih, step_connections_length hstep]

theorem steps_genAt_le {ls : List Lab} {p q : Pool} (h : Steps ls p q)
    (i : Nat) : p.1.genAt i ≤ q.1.genAt i := by
  induction h with
  | nil => exact Nat.le_refl _
  | cons hstep _ ih => exact Nat.le_trans (step_genAt_le hstep i) ih

theorem steps_append {ls₁ ls₂ : List Lab} {p q r : Pool}
    (h₁ : Steps ls₁ p q) (h₂ : Steps ls₂ q r) : Steps (ls₁ ++ ls₂) p r := by
  induction h₁ with
  | nil => exact h₂
  | cons hstep _ ih => exact Steps.cons hstep (ih h₂)

theorem reached_steps {N : Nat} {p q : Pool} {ls : List Lab}
    (h : Reached N p) (hs : Steps ls p q) : Reached N q := by
  obtain ⟨ls₀, h₀⟩ := h
  exact ⟨ls₀ ++ ls, steps_append h₀ hs⟩

theorem step_handles_mono {l : Lab} {p q : Pool} (h : Step l p q)
    {c : Connection} (hc : c ∈ p.2) : c ∈ q.2 := by
  cases h with
  | createOk h => exact List.mem_cons_of_mem _ hc
  | createFail h => exact hc
  | deleteOk hmem h => exact hc
  | deleteErr hmem h => exact hc

end Monotonicity

section AliveLemmas

open ConnectionList

theorem is_alive_isSome {s : ConnectionList} {c : Connection} {b : Bool}
    (h : s.is_alive c = some b) : c.id < s.connections.length := by
  by_contra hge
  have hnone : s.connections[c.id]? = none := List.getElem?_eq_none (by omega)
  unfold is_alive at h
  rw [hnone] at h
  exact absurd h (by simp)

theorem is_alive_true_iff {s : ConnectionList} {c : Connection}
    (h : c.id < s.connections.length) :
    s.is_alive c = some true ↔
      (s.genAt c.id = c.generation ∧ c.generation % 2 = 1) := by
  rw [is_alive_spec h]
  constructor
  · intro hh
    exact of_decide_eq_true (Option.some.inj hh)
  · intro hh
    rw [decide_eq_true hh]

theorem is_alive_false_of_ne {s : ConnectionList} {c : Connection}
    (h : c.id < s.connections.length) (hne : s.genAt c.id ≠ c.generation) :
    s.is_alive c = some false := by
  rw [is_alive_spec h]
  congr 1
  rw [decide_eq_false]
  intro ⟨h1, _⟩
  exact hne h1

theorem delete_err_of_gt {s : ConnectionList} {c : Connection}
    (h : c.id < s.connections.length) (hne : s.genAt c.id ≠ c.generation) :
    s.delete_connection c = some (Except.error ()) := by
  have hsome : s.connections[c.id]? = some (s.connections[c.id]) :=
    List.getElem?_eq_getElem h
  apply delete_connection_eq_err hsome
  intro heq
  apply hne
  rw [genAt_eq_of_getElem hsome, heq]

theorem alive_preserved {N : Nat} {p q : Pool} {c : Connection} {l : Lab}
    (hinv : Inv N p) (halive : p.1.is_alive c = some true)
    (hstep : Step l p q) (hne : l ≠ Lab.deleteOk c) :
    q.1.is_alive c = some true := by
  have hlt : c.id < p.1.connections.length := is_alive_isSome halive
  obtain ⟨hgen, hodd⟩ := (is_alive_true_iff hlt).mp halive
  have hlt₂ : c.id < q.1.connections.length := by
    rw [step_connections_length hstep]
    exact hlt
  rw [is_alive_true_iff hlt₂]
  refine ⟨?_, hodd⟩
  cases hstep with
  | createOk h =>
    rename_i s s₂ c₂ hs
    obtain ⟨rest, old, hq, hg, hc, hs₂⟩ := create_connection_ok h
    subst hs₂
    have hmem : c₂.id ∈ s.empty := by
      rw [hq]
      exact List.mem_cons_self _ _
    obtain ⟨_, heven⟩ := (hinv.mem_empty c₂.id).mp hmem
    have heven' : s.genAt c₂.id % 2 = 0 := heven
    have hgen' : s.genAt c.id = c.generation := hgen
    have hids : c₂.id ≠ c.id := by
      intro heq
      rw [heq, hgen'] at heven'
      omega
    show ConnectionList.genAt ⟨s.connections.set c₂.id c₂, rest⟩ c.id = c.generation
    rw [genAt_set_ne' c₂ hids]
    exact hgen'
  | createFail h =>
    obtain ⟨hs₂, _⟩ := create_connection_fail h
    subst hs₂
    exact hgen
  | deleteOk hmem h =>
    rename_i s s₂ c₂ hs
    obtain ⟨old, hg, hgen₂, hs₂⟩ := delete_connection_ok h
    subst hs₂
    have hgen' : s.genAt c.id = c.generation := hgen
    have hold : old.generation = s.genAt c₂.id := (genAt_eq_of_getElem hg).symm
    have hids : c₂.id ≠ c.id := by
      intro heq
      apply hne
      have hgens : c₂.generation = c.generation := by
        rw [hgen₂, hold, heq, hgen']
      have hceq : c₂ = c := by
        rw [show c₂ = Connection.mk c₂.id c₂.generation from rfl, heq, hgens]
      exact congrArg Lab.deleteOk hceq
    show ConnectionList.genAt
      ⟨s.connections.set c₂.id ⟨c₂.id, old.generation + 1⟩, s.empty ++ [c₂.id]⟩ c.id
        = c.generation
    rw [genAt_set_ne' ⟨c₂.id, old.generation + 1⟩ hids]
    exact hgen'
  | deleteErr hmem h =>
    exact hgen

end AliveLemmas

section DataListLemmas

theorem set_eq_some {T : Type} {d d₂ : ConnectionDataList T} {c : Connection}
    {v : T} (h : d.set c v = some d₂) :
    ∃ g, d.generations[c.id]? = some g ∧ ¬ c.generation < g ∧
      d₂ = ⟨d.items.set c.id (some v),
            d.generations.set c.id c.generation⟩ := by
  unfold ConnectionDataList.set at h
  split at h
  · simp at h
  · rename_i g hg
    split at h
    · simp at h
    · rename_i hlt
      exact ⟨g, hg, hlt, (Option.some.inj h).symm⟩

theorem remove_eq_some {T : Type} {d d₂ : ConnectionDataList T}
    {c : Connection} {r : Option T} (h : d.remove c = some (r, d₂)) :
    ∃ g, d.generations[c.id]? = some g ∧
      ((c.generation ≠ g ∧ r = none ∧ d₂ = d) ∨
       (c.generation = g ∧ ∃ it, d.items[c.id]? = some it ∧ r = it ∧
         d₂ = ⟨d.items.set c.id none, d.generations⟩)) := by
  unfold ConnectionDataList.remove at h
  split at h
  · simp at h
  · rename_i g hg
    split at h
    · rename_i hne
      simp only [Option.some.injEq, Prod.mk.injEq] at h
      exact ⟨g, hg, Or.inl ⟨by simpa using hne, h.1.symm, h.2.symm⟩⟩
    · rename_i heq
      split at h
      · simp at h
      · rename_i it hit
        simp only [Option.some.injEq, Prod.mk.injEq] at h
        exact ⟨g, hg, Or.inr ⟨by simpa using heq, it, hit, h.1.symm, h.2.symm⟩⟩

theorem get_of_match {T : Type} {d : ConnectionDataList T} {c : Connection}
    (hg : d.generations[c.id]? = some c.generation) {it : Option T}
    (hi : d.items[c.id]? = some it) : d.get c = some it := by
  unfold ConnectionDataList.get
  rw [hg]
  simp [hi]

theorem get_of_mismatch {T : Type} {d : ConnectionDataList T}
    {c : Connection} {g : Nat} (hg : d.generations[c.id]? = some g)
    (hne : c.generation ≠ g) : d.get c = some none := by
  unfold ConnectionDataList.get
  rw [hg]
  simp [hne]

theorem remove_of_mismatch {T : Type} {d : ConnectionDataList T}
    {c : Connection} {g : Nat} (hg : d.generations[c.id]? = some g)
    (hne : c.generation ≠ g) : d.remove c = some (none, d) := by
  unfold ConnectionDataList.remove
  rw [hg]
  simp [hne]

theorem stampAt_eq_of_getElem {T : Type} {d : ConnectionDataList T} {i g : Nat}
    (h : d.generations[i]? = some g) : d.stampAt i = g := by
  unfold ConnectionDataList.stampAt
  rw [h]

end DataListLemmas

section Claims

open ConnectionList

/-- C2: for a handle whose id is in bounds, `is_alive` returns `true` iff
the generation stored at slot `h.id` equals the handle's generation and
that stored generation is odd; whenever the stored generation differs from
the handle's, the handle is reported dead. -/
theorem c2_is_alive_iff (s : ConnectionList) (c : Connection)
    (h : c.id < s.connections.length) :
    (s.is_alive c = some true ↔
      (s.genAt c.id = c.generation ∧ s.genAt c.id % 2 = 1)) ∧
    (s.genAt c.id ≠ c.generation → s.is_alive c = some false) := by
  constructor
  · rw [is_alive_true_iff h]
    constructor
    · rintro ⟨h1, h2⟩
      exact ⟨h1, by rw [h1]; exact h2⟩
    · rintro ⟨h1, h2⟩
      exact ⟨h1, by rw [← h1]; exact h2⟩
  · intro hne
    exact is_alive_false_of_ne h hne

theorem c2_witness :
    (⟨[⟨0, 5⟩], []⟩ : ConnectionList).is_alive ⟨0, 3⟩ = some false :=
  (c2_is_alive_iff ⟨[⟨0, 5⟩], []⟩ ⟨0, 3⟩ (by decide)).2 (by decide)

/-- C8 as stated is false: on the capacity-2 scenario, the create call
after `delete_connection (0,1)` returns the handle `(0,3)` (the slot's
generation went 1 → 2 on delete and 2 → 3 on reuse), not `(0,2)`. -/
theorem c8_counterexample :
    (⟨[⟨0, 2⟩, ⟨1, 1⟩], [0]⟩ : ConnectionList).create_connection =
      some (some ⟨0, 3⟩, ⟨[⟨0, 3⟩, ⟨1, 1⟩], []⟩) ∧
    some (⟨0, 3⟩ : Connection) ≠ some ⟨0, 2⟩ := by
  refine ⟨rfl, ?_⟩
  decide

/-- C8 amended: capacity 2; create → (0,1); create → (1,1); create → empty;
delete (0,1) → ok; create → (0,3); then (0,1) is dead and (0,3) alive. -/
theorem c8_amended_scenario :
    (ConnectionList.new 2).create_connection =
      some (some ⟨0, 1⟩, ⟨[⟨0, 1⟩, ⟨1, 0⟩], [1]⟩) ∧
    (⟨[⟨0, 1⟩, ⟨1, 0⟩], [1]⟩ : ConnectionList).create_connection =
      some (some ⟨1, 1⟩, ⟨[⟨0, 1⟩, ⟨1, 1⟩], []⟩) ∧
    (⟨[⟨0, 1⟩, ⟨1, 1⟩], []⟩ : ConnectionList).create_connection =
      some (none, ⟨[⟨0, 1⟩, ⟨1, 1⟩], []⟩) ∧
    (⟨[⟨0, 1⟩, ⟨1, 1⟩], []⟩ : ConnectionList).delete_connection ⟨0, 1⟩ =
      some (Except.ok ⟨[⟨0, 2⟩, ⟨1, 1⟩], [0]⟩) ∧
    (⟨[⟨0, 2⟩, ⟨1, 1⟩], [0]⟩ : ConnectionList).create_connection =
      some (some ⟨0, 3⟩, ⟨[⟨0, 3⟩, ⟨1, 1⟩], []⟩) ∧
    (⟨[⟨0, 3⟩, ⟨1, 1⟩], []⟩ : ConnectionList).is_alive ⟨0, 1⟩ = some false ∧
    (⟨[⟨0, 3⟩, ⟨1, 1⟩], []⟩ : ConnectionList).is_alive ⟨0, 3⟩ = some true :=
  ⟨rfl, rfl, rfl, rfl, rfl, rfl, rfl⟩

/-- C6: for a handle whose id is in bounds, `set` panics exactly when the
handle's generation is strictly below the stored stamp; otherwise (equal or
greater, including skipped generations) it succeeds, overwriting the payload
and restamping the slot with the handle's generation. -/
theorem c6_set_stale_write {T : Type} (d : ConnectionDataList T)
    (c : Connection) (v : T) (h : c.id < d.generations.length) :
    (d.set c v = none ↔ c.generation < d.stampAt c.id) ∧
    (d.stampAt c.id ≤ c.generation →
      d.set c v = some ⟨d.items.set c.id (some v),
                        d.generations.set c.id c.generation⟩) := by
  have hsome : d.generations[c.id]? = some (d.generations[c.id]) :=
    List.getElem?_eq_getElem h
  have hst : d.stampAt c.id = d.generations[c.id] :=
    stampAt_eq_of_getElem hsome
  unfold ConnectionDataList.set
  rw [hsome, hst]
  constructor
  · by_cases hlt : c.generation < d.generations[c.id]
    · simp [hlt]
    · simp [hlt]
  · intro hle
    simp only
    rw [if_neg (by omega)]

theorem c6_witness :
    ((⟨[some 7], [3]⟩ : ConnectionDataList Nat).set ⟨0, 2⟩ 9 = none) ∧
    ((⟨[some 5], [1]⟩ : ConnectionDataList Nat).set ⟨0, 3⟩ 7 =
      some ⟨[some 7], [3]⟩) :=
  ⟨((c6_set_stale_write ⟨[some 7], [3]⟩ ⟨0, 2⟩ 9 (by decide)).1).mpr
      (by decide),
   by
     have h := (c6_set_stale_write ⟨[some 5], [1]⟩ ⟨0, 3⟩ 7 (by decide)).2
       (by decide)
     simpa using h⟩

/-- C7: `set` then `get` with the same handle returns the value; `remove`
then `get` returns absent; `get` and `remove` with a handle whose
generation differs from the stamp of the most recent `set` return absent,
`remove` leaving the state unchanged. -/
theorem c7_round_trip {T : Type} (d : ConnectionDataList T) (c : Connection)
    (v : T) (hglen : c.id < d.generations.length) (hi : c.id < d.items.length) :
    (∀ d₂, d.set c v = some d₂ → d₂.get c = some (some v)) ∧
    (∀ r d₂, d.remove c = some (r, d₂) → d₂.get c = some none) ∧
    (c.generation ≠ d.stampAt c.id →
      d.get c = some none ∧ d.remove c = some (none, d)) := by
  refine ⟨?_, ?_, ?_⟩
  · intro d₂ hset
    obtain ⟨g, hg, _, hd₂⟩ := set_eq_some hset
    subst hd₂
    have hglt : c.id < d.generations.length := (List.getElem?_eq_some.mp hg).1
    apply get_of_match
    · show (d.generations.set c.id c.generation)[c.id]? = some c.generation
      exact List.getElem?_set_eq_of_lt _ hglt
    · show (d.items.set c.id (some v))[c.id]? = some (some v)
      exact List.getElem?_set_eq_of_lt _ hi
  · intro r d₂ hrem
    obtain ⟨g, hg, hcase⟩ := remove_eq_some hrem
    rcases hcase with ⟨hne, _, hd₂⟩ | ⟨heq, it, hit, _, hd₂⟩
    · subst hd₂
      exact get_of_mismatch hg hne
    · subst hd₂
      subst heq
      apply get_of_match
      · exact hg
      · show (d.items.set c.id none)[c.id]? = some none
        exact List.getElem?_set_eq_of_lt _ hi
  · intro hne
    have hsome : d.generations[c.id]? = some (d.generations[c.id]) :=
      List.getElem?_eq_getElem hglen
    have hst : d.stampAt c.id = d.generations[c.id] :=
      stampAt_eq_of_getElem hsome
    rw [hst] at hne
    exact ⟨get_of_mismatch hsome hne, remove_of_mismatch hsome hne⟩

theorem c7_witness :
    ((⟨[some 5], [1]⟩ : ConnectionDataList Nat).get ⟨0, 1⟩ = some (some 5)) ∧
    ((⟨[none], [1]⟩ : ConnectionDataList Nat).get ⟨0, 1⟩ = some none) ∧
    ((⟨[some 7], [3]⟩ : ConnectionDataList Nat).get ⟨0, 1⟩ = some none ∧
     (⟨[some 7], [3]⟩ : ConnectionDataList Nat).remove ⟨0, 1⟩ =
       some (none, ⟨[some 7], [3]⟩)) :=
  ⟨(c7_round_trip ⟨[none], [0]⟩ ⟨0, 1⟩ 5 (by decide) (by decide)).1
      ⟨[some 5], [1]⟩ (by decide),
   (c7_round_trip ⟨[some 5], [1]⟩ ⟨0, 1⟩ 0 (by decide) (by decide)).2.1
      (some 5) ⟨[none], [1]⟩ (by decide),
   (c7_round_trip ⟨[some 7], [3]⟩ ⟨0, 1⟩ 0 (by decide) (by decide)).2.2
      (by decide)⟩

/-- C9: every handle-taking operation indexes the backing vector with
`h.id`, so with `h.id` out of bounds none of them returns a normal result
(the model's `none` is the Rust panic); with `h.id` in bounds, all of them
except `set` (which can still hit the stale-write panic) return a result. -/
theorem c9_out_of_bounds_panics (s : ConnectionList) {T : Type}
    (d : ConnectionDataList T) (c : Connection) (v : T) :
    (s.connections.length ≤ c.id →
      s.is_alive c = none ∧ s.delete_connection c = none) ∧
    (d.generations.length ≤ c.id →
      d.get c = none ∧ d.get_mut c = none ∧ d.set c v = none ∧
      d.remove c = none) ∧
    (c.id < s.connections.length →
      (s.is_alive c).isSome ∧ (s.delete_connection c).isSome) ∧
    (c.id < d.generations.length → c.id < d.items.length →
      (d.get c).isSome ∧ (d.get_mut c).isSome ∧ (d.remove c).isSome) := by
  refine ⟨?_, ?_, ?_, ?_⟩
  · intro hout
    have hnone : s.connections[c.id]? = none := List.getElem?_eq_none hout
    constructor
    · unfold is_alive
      rw [hnone]
    · unfold delete_connection
      rw [hnone]
  · intro hout
    have hnone : d.generations[c.id]? = none := List.getElem?_eq_none hout
    refine ⟨?_, ?_, ?_, ?_⟩
    · unfold ConnectionDataList.get
      rw [hnone]
    · unfold ConnectionDataList.get_mut
      rw [hnone]
    · unfold ConnectionDataList.set
      rw [hnone]
    · unfold ConnectionDataList.remove
      rw [hnone]
  · intro hin
    have hsome : s.connections[c.id]? = some (s.connections[c.id]) :=
      List.getElem?_eq_getElem hin
    constructor
    · unfold is_alive
      rw [hsome]
      by_cases hgen : (s.connections[c.id]).generation = c.generation <;>
        simp [hgen]
    · unfold delete_connection
      rw [hsome]
      by_cases hgen : c.generation = (s.connections[c.id]).generation <;>
        simp [hgen]
  · intro hgin hiin
    have hgsome : d.generations[c.id]? = some (d.generations[c.id]) :=
      List.getElem?_eq_getElem hgin
    have hisome : d.items[c.id]? = some (d.items[c.id]) :=
      List.getElem?_eq_getElem hiin
    refine ⟨?_, ?_, ?_⟩
    · unfold ConnectionDataList.get
      rw [hgsome]
      by_cases hgen : c.generation = d.generations[c.id] <;>
        simp [hgen, hisome]
    · unfold ConnectionDataList.get_mut
      rw [hgsome]
      by_cases hgen : c.generation = d.generations[c.id] <;>
        simp [hgen, hisome]
    · unfold ConnectionDataList.remove
      rw [hgsome]
      by_cases hgen : c.generation = d.generations[c.id] <;>
        simp [hgen, hisome]

theorem c9_witness :
    ((ConnectionList.new 1).is_alive ⟨3, 0⟩ = none ∧
     (ConnectionList.new 1).delete_connection ⟨3, 0⟩ = none) ∧
    ((ConnectionDataList.new Nat 1).get ⟨3, 0⟩ = none ∧
     (ConnectionDataList.new Nat 1).get_mut ⟨3, 0⟩ = none ∧
     (ConnectionDataList.new Nat 1).set ⟨3, 0⟩ 5 = none ∧
     (ConnectionDataList.new Nat 1).remove ⟨3, 0⟩ = none) ∧
    (((ConnectionList.new 1).is_alive ⟨0, 0⟩).isSome ∧
     ((ConnectionList.new 1).delete_connection ⟨0, 0⟩).isSome) :=
  ⟨(c9_out_of_bounds_panics (ConnectionList.new 1)
      (ConnectionDataList.new Nat 1) ⟨3, 0⟩ 5).1 (by decide),
   (c9_out_of_bounds_panics (ConnectionList.new 1)
      (ConnectionDataList.new Nat 1) ⟨3, 0⟩ 5).2.1 (by decide),
   (c9_out_of_bounds_panics (ConnectionList.new 1)
      (ConnectionDataList.new Nat 1) ⟨0, 0⟩ 5).2.2.1 (by decide)⟩

/-- C10: `delete_connection` checks only generation equality, never parity:
a handle matching the stored generation is deleted even when that
generation is even (a handle never issued by `create_connection`, possible
only via the crate-private constructor, e.g. `(i, 0)` on a fresh pool).
The slot's generation becomes odd — so the slot then reads as alive — and
the id is pushed onto the free queue even if already present. -/
theorem c10_delete_even_generation (s : ConnectionList) (c : Connection)
    (old : Connection) (hg : s.connections[c.id]? = some old)
    (hgen : c.generation = old.generation) :
    s.delete_connection c = some (Except.ok
      ⟨s.connections.set c.id ⟨c.id, c.generation + 1⟩, s.empty ++ [c.id]⟩) ∧
    ConnectionList.genAt
      ⟨s.connections.set c.id ⟨c.id, c.generation + 1⟩, s.empty ++ [c.id]⟩ c.id
        = c.generation + 1 ∧
    (c.generation % 2 = 0 →
      (⟨s.connections.set c.id ⟨c.id, c.generation + 1⟩,
        s.empty ++ [c.id]⟩ : ConnectionList).is_alive ⟨c.id, c.generation + 1⟩
          = some true) ∧
    (s.empty ++ [c.id]).count c.id = s.empty.count c.id + 1 := by
  have hidlt : c.id < s.connections.length := (List.getElem?_eq_some.mp hg).1
  have hdel := delete_connection_eq_ok hg hgen
  rw [← hgen] at hdel
  have hsetlen : c.id <
      (s.connections.set c.id ⟨c.id, c.generation + 1⟩).length := by
    rw [List.length_set]
    exact hidlt
  have hgenAt : ConnectionList.genAt
      ⟨s.connections.set c.id ⟨c.id, c.generation + 1⟩, s.empty ++ [c.id]⟩ c.id
        = c.generation + 1 :=
    genAt_set_self' ⟨c.id, c.generation + 1⟩ hidlt
  refine ⟨hdel, hgenAt, ?_, ?_⟩
  · intro heven
    exact (@is_alive_true_iff
      ⟨s.connections.set c.id ⟨c.id, c.generation + 1⟩, s.empty ++ [c.id]⟩
      ⟨c.id, c.generation + 1⟩ hsetlen).mpr
      ⟨hgenAt, by show (c.generation + 1) % 2 = 1; omega⟩
  · rw [List.count_append]
    simp

theorem c10_witness :
    (ConnectionList.new 1).delete_connection ⟨0, 0⟩ = some (Except.ok
      ⟨(ConnectionList.new 1).connections.set 0 ⟨0, 1⟩,
       (ConnectionList.new 1).empty ++ [0]⟩) ∧
    ((ConnectionList.new 1).empty ++ [0]).count 0 =
      (ConnectionList.new 1).empty.count 0 + 1 :=
  ⟨(c10_delete_even_generation (ConnectionList.new 1) ⟨0, 0⟩ ⟨0, 0⟩
      (by decide) rfl).1,
   (c10_delete_even_generation (ConnectionList.new 1) ⟨0, 0⟩ ⟨0, 0⟩
      (by decide) rfl).2.2.2⟩

theorem midState_zero (N : Nat) : midState N 0 = ConnectionList.new N := by
  unfold midState ConnectionList.new
  have hf : ∀ i ∈ List.range N,
      (if i < 0 then (⟨i, 1⟩ : Connection) else ⟨i, 0⟩) = (⟨i, 0⟩ : Connection) := by
    intro i _
    simp
  rw [List.map_congr_left hf, Nat.sub_zero, ← List.range_eq_range']

theorem midState_connections_length (N k : Nat) :
    (midState N k).connections.length = N := by
  simp [midState]

theorem midState_getElem (N k i : Nat) (h : i < N) :
    (midState N k).connections[i]? =
      some (if i < k then ⟨i, 1⟩ else ⟨i, 0⟩) := by
  unfold midState
  rw [List.getElem?_map, List.getElem?_range h]
  rfl

theorem midState_create (N k : Nat) (h : k < N) :
    (midState N k).create_connection = some (some ⟨k, 1⟩, midState N (k + 1)) := by
  have hqueue : (midState N k).empty = k :: List.range' (k + 1) (N - (k + 1)) := by
    show List.range' k (N - k) = k :: List.range' (k + 1) (N - (k + 1))
    have hsub : N - k = (N - (k + 1)) + 1 := by omega
    rw [hsub, List.range'_succ]
  have hget : (midState N k).connections[k]? = some ⟨k, 0⟩ := by
    rw [midState_getElem N k k h]
    simp
  have hset : (midState N k).connections.set k ⟨k, 1⟩ =
      (midState N (k + 1)).connections := by
    apply List.ext_getElem?
    intro i
    by_cases hik : i = k
    · subst hik
      rw [List.getElem?_set_eq_of_lt _ (by rw [midState_connections_length]; omega),
          midState_getElem N (i + 1) i (by omega)]
      simp
    · rw [List.getElem?_set_ne (fun hcontra => hik hcontra.symm)]
      rcases Nat.lt_or_ge i N with hiN | hiN
      · rw [midState_getElem N k i hiN, midState_getElem N (k + 1) i hiN]
        by_cases hlt : i < k
        · rw [if_pos hlt, if_pos (by omega)]
        · rw [if_neg hlt, if_neg (by omega)]
      · rw [List.getElem?_eq_none (by rw [midState_connections_length]; omega),
            List.getElem?_eq_none (by rw [midState_connections_length]; omega)]
  unfold ConnectionList.create_connection
  rw [hqueue]
  simp only [hget]
  rw [hset]
  rfl

theorem creates_midState (N : Nat) :
    ∀ j k, k + j = N → creates (midState N k) j = some (midState N N) := by
  intro j
  induction j with
  | zero =>
    intro k hk
    have : k = N := by omega
    subst this
    rfl
  | succ j ih =>
    intro k hk
    have hkN : k < N := by omega
    unfold creates
    rw [midState_create N k hkN]
    exact ih (k + 1) (by omega)

/-- C3: a fresh pool of capacity `N` serves exactly `N` `create_connection`
calls: the first `N` all return a handle, and the following call returns
no handle while leaving the pool unchanged (so every later call returns no
handle as well); for `N = 0` this says the very first call already fails. -/
theorem c3_pool_exhaustion (N : Nat) :
    creates (ConnectionList.new N) N = some (midState N N) ∧
    (midState N N).create_connection = some (none, midState N N) := by
  constructor
  · have h := creates_midState N N 0 (by omega)
    rw [midState_zero] at h
    exact h
  · have hq : (midState N N).empty = [] := by
      show List.range' N (N - N) = []
      rw [Nat.sub_self]
      exact List.range'_eq_nil.mpr rfl
    unfold ConnectionList.create_connection
    rw [hq]

/-- C4: in any reachable pool state, a successful `create_connection`
increments the popped slot's stored generation by exactly 1 (to an odd
value) and leaves every other slot unchanged, and a successful
`delete_connection` on an issued handle increments its slot's stored
generation by exactly 1 (to an even value) and leaves every other slot
unchanged — so per slot the generation never decreases and alternates
odd (created) / even (deleted). -/
theorem c4_generation_monotonic (N : Nat) (s : ConnectionList)
    (hs : List Connection) (hr : Reached N (s, hs)) :
    (∀ c s₂, s.create_connection = some (some c, s₂) →
      s₂.genAt c.id = s.genAt c.id + 1 ∧ s₂.genAt c.id % 2 = 1 ∧
      ∀ i, i ≠ c.id → s₂.genAt i = s.genAt i) ∧
    (∀ c s₂, c ∈ hs → s.delete_connection c = some (Except.ok s₂) →
      s₂.genAt c.id = s.genAt c.id + 1 ∧ s₂.genAt c.id % 2 = 0 ∧
      ∀ i, i ≠ c.id → s₂.genAt i = s.genAt i) := by
  have hinv := inv_reached hr
  constructor
  · intro c s₂ h
    obtain ⟨rest, old, hq, hg, hc, hs₂⟩ := create_connection_ok h
    subst hs₂
    have hidlt : c.id < s.connections.length := (List.getElem?_eq_some.mp hg).1
    have hmem : c.id ∈ s.empty := by
      rw [hq]
      exact List.mem_cons_self _ _
    obtain ⟨_, heven⟩ := (hinv.mem_empty c.id).mp hmem
    have heven' : s.genAt c.id % 2 = 0 := heven
    have h1 : s.genAt c.id = old.generation := genAt_eq_of_getElem hg
    have h2 : ConnectionList.genAt ⟨s.connections.set c.id c, rest⟩ c.id
        = c.generation := genAt_set_self' c hidlt
    have h3 : c.generation = old.generation + 1 := by rw [hc]
    refine ⟨by omega, by omega, ?_⟩
    intro i hi
    exact genAt_set_ne' c (fun hcontra => hi hcontra.symm)
  · intro c s₂ hmem h
    obtain ⟨old, hg, hgen, hs₂⟩ := delete_connection_ok h
    subst hs₂
    have hidlt : c.id < s.connections.length := (List.getElem?_eq_some.mp hg).1
    have h1 : s.genAt c.id = old.generation := genAt_eq_of_getElem hg
    have h2 : ConnectionList.genAt
        ⟨s.connections.set c.id ⟨c.id, old.generation + 1⟩, s.empty ++ [c.id]⟩ c.id
          = old.generation + 1 :=
      genAt_set_self' ⟨c.id, old.generation + 1⟩ hidlt
    obtain ⟨_, hodd, _⟩ := hinv.handles c hmem
    refine ⟨by omega, by omega, ?_⟩
    intro i hi
    exact genAt_set_ne' ⟨c.id, old.generation + 1⟩ (fun hcontra => hi hcontra.symm)

theorem c4_witness :
    ConnectionList.genAt ⟨[⟨0, 1⟩], []⟩ 0 = (ConnectionList.new 1).genAt 0 + 1 ∧
    ConnectionList.genAt ⟨[⟨0, 1⟩], []⟩ 0 % 2 = 1 :=
  ⟨((c4_generation_monotonic 1 (ConnectionList.new 1) [] ⟨[], Steps.nil⟩).1
      ⟨0, 1⟩ ⟨[⟨0, 1⟩], []⟩ (by decide)).1,
   ((c4_generation_monotonic 1 (ConnectionList.new 1) [] ⟨[], Steps.nil⟩).1
      ⟨0, 1⟩ ⟨[⟨0, 1⟩], []⟩ (by decide)).2.1⟩

/-- C5: in every reachable pool state, an id is in the free queue iff it is
in bounds and its stored generation is even; the free queue has no
duplicates; and the queue length plus the number of ids with odd stored
generation equals the capacity. -/
theorem c5_free_queue_invariant (N : Nat) (s : ConnectionList)
    (hs : List Connection) (hr : Reached N (s, hs)) :
    (∀ i, i ∈ s.empty ↔ (i < N ∧ s.genAt i % 2 = 0)) ∧
    s.empty.Nodup ∧
    s.empty.length +
      ((List.range N).filter (fun i => s.genAt i % 2 = 1)).length = N := by
  have hinv := inv_reached hr
  have hmem : ∀ i, i ∈ s.empty ↔ (i < N ∧ s.genAt i % 2 = 0) := by
    intro i
    exact hinv.mem_empty i
  have hnodup : s.empty.Nodup := hinv.nodup
  refine ⟨hmem, hnodup, ?_⟩
  have hfilter_nodup :
      ((List.range N).filter (fun i => decide (s.genAt i % 2 = 0))).Nodup :=
    (List.nodup_range N).filter _
  have hperm : s.empty.Perm
      ((List.range N).filter (fun i => decide (s.genAt i % 2 = 0))) := by
    rw [List.perm_ext_iff_of_nodup hnodup hfilter_nodup]
    intro a
    rw [List.mem_filter, List.mem_range, hmem a]
    constructor
    · rintro ⟨h1, h2⟩
      exact ⟨h1, by simpa using h2⟩
    · rintro ⟨h1, h2⟩
      exact ⟨h1, by simpa using h2⟩
  have hlen := hperm.length_eq
  have hpart := @List.length_eq_length_filter_add Nat (List.range N)
    (fun i => decide (s.genAt i % 2 = 0))
  have hcongr : (List.range N).filter (fun i => !decide (s.genAt i % 2 = 0)) =
      (List.range N).filter (fun i => decide (s.genAt i % 2 = 1)) := by
    apply List.filter_congr
    intro i _
    rcases Nat.mod_two_eq_zero_or_one (s.genAt i) with h | h <;> simp [h]
  rw [hcongr] at hpart
  rw [List.length_range] at hpart
  omega

theorem c5_witness :
    (0 ∈ (ConnectionList.new 1).empty ↔
      (0 < 1 ∧ (ConnectionList.new 1).genAt 0 % 2 = 0)) ∧
    (ConnectionList.new 1).empty.Nodup ∧
    (ConnectionList.new 1).empty.length +
      ((List.range 1).filter
        (fun i => (ConnectionList.new 1).genAt i % 2 = 1)).length = 1 :=
  ⟨(c5_free_queue_invariant 1 (ConnectionList.new 1) [] ⟨[], Steps.nil⟩).1 0,
   (c5_free_queue_invariant 1 (ConnectionList.new 1) [] ⟨[], Steps.nil⟩).2.1,
   (c5_free_queue_invariant 1 (ConnectionList.new 1) [] ⟨[], Steps.nil⟩).2.2⟩

/-- C1: in any reachable pool state, (a) a handle just returned by
`create_connection` is alive; (b) an issued handle that is alive stays
alive across any sequence of API calls that contains no successful
deletion of that very handle; (c) once `delete_connection` succeeds on a
handle, the handle is dead immediately and after every further sequence of
API calls, and `delete_connection` on it fails from then on. -/
theorem c1_handle_lifecycle (N : Nat) (s : ConnectionList)
    (hs : List Connection) (hr : Reached N (s, hs)) :
    (∀ c s₂, s.create_connection = some (some c, s₂) →
      s₂.is_alive c = some true) ∧
    (∀ c, c ∈ hs → s.is_alive c = some true →
      ∀ ls q, Steps ls (s, hs) q → Lab.deleteOk c ∉ ls →
        q.1.is_alive c = some true) ∧
    (∀ c q, Step (Lab.deleteOk c) (s, hs) q →
      q.1.is_alive c = some false ∧
      ∀ ls r, Steps ls q r →
        r.1.is_alive c = some false ∧
        r.1.delete_connection c = some (Except.error ())) := by
  have hinv := inv_reached hr
  refine ⟨?_, ?_, ?_⟩
  · intro c s₂ h
    obtain ⟨rest, old, hq, hg, hc, hs₂⟩ := create_connection_ok h
    subst hs₂
    have hidlt : c.id < s.connections.length := (List.getElem?_eq_some.mp hg).1
    have hmem : c.id ∈ s.empty := by
      rw [hq]
      exact List.mem_cons_self _ _
    obtain ⟨_, heven⟩ := (hinv.mem_empty c.id).mp hmem
    have heven' : s.genAt c.id % 2 = 0 := heven
    have h1 : s.genAt c.id = old.generation := genAt_eq_of_getElem hg
    have h3 : c.generation = old.generation + 1 := by rw [hc]
    have hlen₂ : c.id < (s.connections.set c.id c).length := by
      rw [List.length_set]
      exact hidlt
    exact (@is_alive_true_iff ⟨s.connections.set c.id c, rest⟩ c hlen₂).mpr
      ⟨genAt_set_self' c hidlt, by omega⟩
  · have main : ∀ ls (p q : Pool), Steps ls p q → Inv N p →
        ∀ c, p.1.is_alive c = some true → Lab.deleteOk c ∉ ls →
          q.1.is_alive c = some true := by
      intro ls p q hsteps
      induction hsteps with
      | nil =>
        intro _ c halive _
        exact halive
      | cons hstep _ ih =>
        rename_i l ls₂ p₂ q₂ r₂ htail
        intro hinvp c halive hnotin
        have hne : l ≠ Lab.deleteOk c := by
          intro heq
          rw [← heq] at hnotin
          exact hnotin (List.mem_cons_self _ _)
        have halive₂ := alive_preserved hinvp halive hstep hne
        exact ih (inv_step hstep hinvp) c halive₂
          (fun hmem => hnotin (List.mem_cons_of_mem _ hmem))
    intro c _ halive ls q hsteps hnotin
    exact main ls (s, hs) q hsteps hinv c halive hnotin
  · intro c q hstep
    cases hstep with
    | deleteOk hmem h =>
      rename_i s₂
      obtain ⟨old, hg, hgen, hs₂⟩ := delete_connection_ok h
      subst hs₂
      have hidlt : c.id < s.connections.length := (List.getElem?_eq_some.mp hg).1
      have hgenq : ConnectionList.genAt
          ⟨s.connections.set c.id ⟨c.id, old.generation + 1⟩, s.empty ++ [c.id]⟩ c.id
            = old.generation + 1 :=
        genAt_set_self' ⟨c.id, old.generation + 1⟩ hidlt
      have hlenq : c.id < (s.connections.set c.id
          ⟨c.id, old.generation + 1⟩).length := by
        rw [List.length_set]
        exact hidlt
      have hfalseq : (⟨s.connections.set c.id ⟨c.id, old.generation + 1⟩,
          s.empty ++ [c.id]⟩ : ConnectionList).is_alive c = some false :=
        is_alive_false_of_ne hlenq (by omega)
      refine ⟨hfalseq, ?_⟩
      intro ls r hsteps
      have hlenr := steps_connections_length hsteps
      have hmono := steps_genAt_le hsteps c.id
      have hgtr : c.generation < r.1.genAt c.id := by
        have hq1 : ConnectionList.genAt
            ⟨s.connections.set c.id ⟨c.id, old.generation + 1⟩,
             s.empty ++ [c.id]⟩ c.id ≤ r.1.genAt c.id := hmono
        omega
      have hboundr : c.id < r.1.connections.length := by
        rw [hlenr]
        show c.id < (s.connections.set c.id ⟨c.id, old.generation + 1⟩).length
        exact hlenq
      exact ⟨is_alive_false_of_ne hboundr (by omega),
             delete_err_of_gt hboundr (by omega)⟩

theorem c1_witness :
    (⟨[⟨0, 1⟩], []⟩ : ConnectionList).is_alive ⟨0, 1⟩ = some true :=
  (c1_handle_lifecycle 1 (ConnectionList.new 1) [] ⟨[], Steps.nil⟩).1
    ⟨0, 1⟩ ⟨[⟨0, 1⟩], []⟩ (by decide)

end Claims

end Netstack
